import Mathlib

/- Shallow embedding of the configuration-tree enrichment and documentation
pipeline of IntuneCD, from:
  src/IntuneCD/backup/Intune/SettingsCatalog.py
  src/IntuneCD/intunecdlib/documentation_functions.py
Python strings are modelled as Lean `String`, manipulated through their
`List Char` code points (CPython compares and slices strings by code point);
Python byte strings are `List Nat`; code paths that can raise are modelled
with `Except Unit` or `Option`. -/

/-- Python scalar value as it appears in the JSON-shaped records handled by
the pipeline: a string, an integer or a boolean. -/
inductive PyVal where
  | str (s : String)
  | int (n : Int)
  | bool (b : Bool)
deriving DecidableEq, Repr

/-- Python `str(value)` for the scalar values above. -/
def pyStr : PyVal → String
  | .str s => s
  | .int n => toString n
  | .bool b => if b then "True" else "False"

/-- Python truthiness of a scalar (`""`, `0` and `False` are falsy). -/
def pyTruthy : PyVal → Bool
  | .str s => !s.data.isEmpty
  | .int n => n != 0
  | .bool b => b

/-- Whitespace characters stripped by Python `str.strip()` (ASCII part). -/
def pyIsSpace (c : Char) : Bool :=
  c = ' ' || c = '\t' || c = '\n' || c = '\x0d' || c = '\x0b' || c = '\x0c'

/-- Python `str.strip()` on code points. -/
def pyStripChars (cs : List Char) : List Char :=
  ((cs.dropWhile pyIsSpace).reverse.dropWhile pyIsSpace).reverse

/-- Python `str.strip()`. -/
def pyStrip (s : String) : String :=
  String.mk (pyStripChars s.data)

/-- Python `s.startswith(p)`. -/
def pyStartsWith (s p : String) : Bool :=
  s.data.take p.data.length == p.data

/-- Python `s.endswith(p)`. -/
def pyEndsWith (s p : String) : Bool :=
  s.data.reverse.take p.data.length == p.data.reverse

/-- Python `len(s)` (number of code points). -/
def pyLen (s : String) : Nat :=
  s.data.length

/-- Python `sub in s` substring test, on code points. -/
def pyContainsSub (s sub : String) : Bool :=
  go s.data sub.data
where
  go : List Char → List Char → Bool
    | hay, needle =>
      (hay.take needle.length == needle) ||
        match hay with
        | [] => false
        | _ :: t => go t needle

/-- Python `s.lower()` (ASCII case folding, which is all the pipeline needs). -/
def pyLower (s : String) : String :=
  String.mk (s.data.map Char.toLower)

/-- Python `s.split(sep)` for a one-character separator: the pieces between
occurrences of `sep`, keeping empty pieces. -/
def pySplitChar (sep : Char) (s : String) : List String :=
  (go s.data).map String.mk
where
  go : List Char → List (List Char)
    | [] => [[]]
    | c :: t =>
      let rest := go t
      if c = sep then [] :: rest
      else
        match rest with
        | r :: rs => (c :: r) :: rs
        | [] => [[c]]

/-- Python `s.replace(a, b)` for a one-character pattern. -/
def pyReplaceChar (a : Char) (b : String) (s : String) : String :=
  String.mk (s.data.flatMap fun c => if c = a then b.data else [c])

/-- Python `s.title()`: an alphabetic character is uppercased when the
previous character is not alphabetic and lowercased otherwise. -/
def pyTitle (s : String) : String :=
  String.mk (go s.data false)
where
  go : List Char → Bool → List Char
    | [], _ => []
    | c :: t, prevAlpha =>
      (if c.isAlpha then (if prevAlpha then c.toLower else c.toUpper) else c)
        :: go t c.isAlpha

/-- Model of the regex substitution `re.sub(r'_v\d+$', '', name)`: drop a
trailing `_v<digits>` suffix when present. -/
def stripVersionTail (s : String) : String :=
  let r := s.data.reverse
  let ds := r.takeWhile Char.isDigit
  if !ds.isEmpty && (r.drop ds.length).take 2 == ['v', '_'] then
    String.mk ((r.drop (ds.length + 2)).reverse)
  else s

/-- Model of the regex substitution `re.sub(r'([a-z])([A-Z])', r'\1 \2', name)`:
insert a space between a lowercase letter followed by an uppercase letter.
(The regex engine resumes scanning after each match; since an uppercase letter
never starts a new match, the plain left-to-right pass below is equivalent.) -/
def camelSpaces (s : String) : String :=
  String.mk (go s.data)
where
  go : List Char → List Char
    | a :: b :: t =>
      if a.isLower && b.isUpper then a :: ' ' :: go (b :: t)
      else a :: go (b :: t)
    | l => l

/-- Python `" ".join(parts)`. -/
def joinSpace (parts : List String) : String :=
  String.mk ((parts.map String.data).intersperse [' ']).flatten

/-- Embedding of `_format_setting_name` (documentation_functions.py): derive a
readable fallback name from a setting definition id when no display name was
resolved. -/
def formatSettingName (settingDefinitionId : String) : String :=
  if settingDefinitionId.data.isEmpty then "Unknown Setting"
  else if pyContainsSub (pyLower settingDefinitionId) "machineinactivitylimit" then
    "Interactive Logon Machine Inactivity Limit"
  else
    let parts := pySplitChar '_' settingDefinitionId
    if parts.length > 3 then
      let meaningfulParts := if parts.length > 5 then parts.drop (parts.length - 3)
        else parts.drop (parts.length - 2)
      let name := joinSpace meaningfulParts
      let name := stripVersionTail name
      let name := camelSpaces name
      pyTitle name
    else
      pyTitle (pyReplaceChar '_' " " settingDefinitionId)

/-- JSON value as produced by `json.loads`.  Numeric literals are kept as
their source lexeme: no claim depends on Python float semantics, only on
whether parsing succeeds or fails. -/
inductive JsonVal where
  | null
  | bool (b : Bool)
  | num (lexeme : String)
  | str (s : String)
  | arr (items : List JsonVal)
  | obj (members : List (String × JsonVal))
deriving Repr

/-- Whitespace accepted between JSON tokens by Python `json.loads`. -/
def jsonWs (c : Char) : Bool :=
  c = ' ' || c = '\t' || c = '\n' || c = '\x0d'

/-- Hexadecimal digit value. -/
def hexVal (c : Char) : Option Nat :=
  if '0' ≤ c ∧ c ≤ '9' then some (c.toNat - 48)
  else if 'a' ≤ c ∧ c ≤ 'f' then some (c.toNat - 87)
  else if 'A' ≤ c ∧ c ≤ 'F' then some (c.toNat - 55)
  else none

/-- Body of a JSON string literal (after the opening quote): returns the
decoded code points and the input remaining after the closing quote.
Python `json.loads` additionally accepts lone UTF-16 surrogates, which a Lean
`Char` cannot carry; those are modelled as a parse failure (unreachable from
the formatter claims). -/
def jsonStringBody : Nat → List Char → Option (List Char × List Char)
  | 0, _ => none
  | fuel + 1, cs =>
    match cs with
    | [] => none
    | c :: t =>
      if c = '"' then some ([], t)
      else if c = '\\' then
        match t with
        | [] => none
        | e :: t1 =>
          let simpleEsc : Option Char :=
            if e = '"' then some '"' else if e = '\\' then some '\\'
            else if e = '/' then some '/' else if e = 'b' then some '\x08'
            else if e = 'f' then some '\x0c' else if e = 'n' then some '\n'
            else if e = 'r' then some '\x0d' else if e = 't' then some '\t'
            else none
          match simpleEsc with
          | some c1 => (jsonStringBody fuel t1).map fun p => (c1 :: p.1, p.2)
          | none =>
            if e = 'u' then
              match t1 with
              | h1 :: h2 :: h3 :: h4 :: t2 =>
                match hexVal h1, hexVal h2, hexVal h3, hexVal h4 with
                | some a, some b, some c2, some d =>
                  let n := ((a * 16 + b) * 16 + c2) * 16 + d
                  if 0xD800 ≤ n ∧ n < 0xDC00 then
                    match t2 with
                    | e1 :: u1 :: g1 :: g2 :: g3 :: g4 :: t3 =>
                      if e1 = '\\' ∧ u1 = 'u' then
                        match hexVal g1, hexVal g2, hexVal g3, hexVal g4 with
                        | some a2, some b2, some c3, some d2 =>
                          let m := ((a2 * 16 + b2) * 16 + c3) * 16 + d2
                          if 0xDC00 ≤ m ∧ m < 0xE000 then
                            let cp := 0x10000 + (n - 0xD800) * 0x400 + (m - 0xDC00)
                            (jsonStringBody fuel t3).map fun p => (Char.ofNat cp :: p.1, p.2)
                          else none
                        | _, _, _, _ => none
                      else none
                    | _ => none
                  else if 0xDC00 ≤ n ∧ n < 0xE000 then none
                  else (jsonStringBody fuel t2).map fun p => (Char.ofNat n :: p.1, p.2)
                | _, _, _, _ => none
              | _ => none
            else none
      else if c.toNat < 0x20 then none
      else (jsonStringBody fuel t).map fun p => (c :: p.1, p.2)

/-- Lexeme of a JSON number: `-? (0 | [1-9][0-9]*) (.[0-9]+)? ([eE][+-]?[0-9]+)?`. -/
def jsonNumberLexeme (cs : List Char) : Option (List Char × List Char) := do
  let (sign, cs1) := match cs with
    | '-' :: t => (['-'], t)
    | _ => (([] : List Char), cs)
  let (intPart, cs2) ← match cs1 with
    | '0' :: t => some (['0'], t)
    | c :: _ =>
      if c.isDigit then
        let ds := cs1.takeWhile Char.isDigit
        some (ds, cs1.drop ds.length)
      else none
    | [] => none
  let (fracPart, cs3) := match cs2 with
    | '.' :: t =>
      let ds := t.takeWhile Char.isDigit
      if ds.isEmpty then ([], cs2) else ('.' :: ds, t.drop ds.length)
    | _ => ([], cs2)
  if fracPart.isEmpty ∧ (cs2.take 1 == ['.']) then none
  else
    let (expPart, cs4) := match cs3 with
      | e :: t =>
        if e = 'e' ∨ e = 'E' then
          let (sgn, t1) := match t with
            | '+' :: t2 => (['+'], t2)
            | '-' :: t2 => (['-'], t2)
            | _ => ([], t)
          let ds := t1.takeWhile Char.isDigit
          if ds.isEmpty then (([] : List Char), cs3) else (e :: (sgn ++ ds), t1.drop ds.length)
        else ([], cs3)
      | [] => ([], cs3)
    some (sign ++ intPart ++ fracPart ++ expPart, cs4)

mutual

/-- Parser for a JSON value, fuelled by the input length.  Mirrors Python
`json.loads` (which also accepts the `NaN`, `Infinity` and `-Infinity`
lexemes). -/
def jsonValue : Nat → List Char → Option (JsonVal × List Char)
  | 0, _ => none
  | fuel + 1, cs =>
    match cs with
    | [] => none
    | c :: t =>
      if c = '"' then (jsonStringBody (fuel + 1) t).map fun p => (.str (String.mk p.1), p.2)
      else if c = '\x7b' then jsonMembers fuel (t.dropWhile jsonWs) true
      else if c = '[' then jsonItems fuel (t.dropWhile jsonWs) true
      else if cs.take 4 == ['t', 'r', 'u', 'e'] then some (.bool true, cs.drop 4)
      else if cs.take 5 == ['f', 'a', 'l', 's', 'e'] then some (.bool false, cs.drop 5)
      else if cs.take 4 == ['n', 'u', 'l', 'l'] then some (.null, cs.drop 4)
      else if cs.take 3 == ['N', 'a', 'N'] then some (.num "NaN", cs.drop 3)
      else if cs.take 8 == ['I', 'n', 'f', 'i', 'n', 'i', 't', 'y'] then
        some (.num "Infinity", cs.drop 8)
      else if cs.take 9 == ['-', 'I', 'n', 'f', 'i', 'n', 'i', 't', 'y'] then
        some (.num "-Infinity", cs.drop 9)
      else (jsonNumberLexeme cs).map fun p => (.num (String.mk p.1), p.2)

/-- Members of a JSON object, after the opening brace and leading whitespace;
`first` is true before the first member. -/
def jsonMembers : Nat → List Char → Bool → Option (JsonVal × List Char)
  | 0, _, _ => none
  | fuel + 1, cs, first => do
    if first ∧ cs.take 1 == ['\x7d'] then
      some (.obj [], cs.drop 1)
    else
      match cs with
      | '"' :: t => do
        let (key, r1) ← jsonStringBody (fuel + 1) t
        let r2 := r1.dropWhile jsonWs
        match r2 with
        | ':' :: r3 => do
          let (v, r4) ← jsonValue fuel (r3.dropWhile jsonWs)
          let r5 := r4.dropWhile jsonWs
          match r5 with
          | ',' :: r6 => do
            let (rest, r7) ← jsonMembers fuel (r6.dropWhile jsonWs) false
            match rest with
            | .obj ms => some (.obj ((String.mk key, v) :: ms), r7)
            | _ => none
          | '\x7d' :: r6 => some (.obj [(String.mk key, v)], r6)
          | _ => none
        | _ => none
      | _ => none

/-- Items of a JSON array, after the opening bracket and leading whitespace. -/
def jsonItems : Nat → List Char → Bool → Option (JsonVal × List Char)
  | 0, _, _ => none
  | fuel + 1, cs, first => do
    if first ∧ cs.take 1 == [']'] then
      some (.arr [], cs.drop 1)
    else do
      let (v, r1) ← jsonValue fuel cs
      let r2 := r1.dropWhile jsonWs
      match r2 with
      | ',' :: r3 => do
        let (rest, r4) ← jsonItems fuel (r3.dropWhile jsonWs) false
        match rest with
        | .arr vs => some (.arr (v :: vs), r4)
        | _ => none
      | ']' :: r3 => some (.arr [v], r3)
      | _ => none

end

/-- Embedding of `json.loads(s)`: parse one value, allow trailing whitespace,
require the whole input to be consumed. -/
def jsonLoads (s : String) : Option JsonVal := do
  let cs := s.data.dropWhile jsonWs
  let (v, rest) ← jsonValue (cs.length + 1) cs
  if (rest.dropWhile jsonWs).isEmpty then some v else none

/-- Hexadecimal digit character for values below 16. -/
def hexDigit (n : Nat) : Char :=
  if n < 10 then Char.ofNat (48 + n) else Char.ofNat (87 + n)

/-- Four-digit lowercase hexadecimal rendering used by the `\uXXXX` escapes
of `json.dumps`. -/
def hex4 (n : Nat) : List Char :=
  [hexDigit (n / 4096 % 16), hexDigit (n / 256 % 16), hexDigit (n / 16 % 16), hexDigit (n % 16)]

/-- Escaping of one string character performed by `json.dumps` with its
default `ensure_ascii=True`. -/
def jsonEscapeChar (c : Char) : List Char :=
  if c = '"' then ['\\', '"']
  else if c = '\\' then ['\\', '\\']
  else if c = '\n' then ['\\', 'n']
  else if c = '\x0d' then ['\\', 'r']
  else if c = '\t' then ['\\', 't']
  else if c = '\x08' then ['\\', 'b']
  else if c = '\x0c' then ['\\', 'f']
  else if c.toNat < 0x20 ∨ 0x7e < c.toNat then
    if c.toNat < 0x10000 then '\\' :: 'u' :: hex4 c.toNat
    else
      let v := c.toNat - 0x10000
      ('\\' :: 'u' :: hex4 (0xD800 + v / 0x400)) ++ ('\\' :: 'u' :: hex4 (0xDC00 + v % 0x400))
  else [c]

/-- JSON string literal as written by `json.dumps`. -/
def jsonDumpString (s : String) : List Char :=
  '"' :: s.data.flatMap jsonEscapeChar ++ ['"']

mutual

/-- Embedding of `json.dumps(v, indent=2)` at nesting depth `ind` (the number
of spaces the closing bracket of the current container is indented by). -/
def jsonDumpVal : Nat → JsonVal → List Char
  | _, .null => ['n', 'u', 'l', 'l']
  | _, .bool true => ['t', 'r', 'u', 'e']
  | _, .bool false => ['f', 'a', 'l', 's', 'e']
  | _, .num lx => lx.data
  | _, .str s => jsonDumpString s
  | _, .arr [] => ['[', ']']
  | ind, .arr (v :: vs) =>
    ('[' :: '\n' :: List.replicate (ind + 2) ' ') ++ jsonDumpVal (ind + 2) v
      ++ jsonDumpItems (ind + 2) vs ++ ('\n' :: List.replicate ind ' ') ++ [']']
  | _, .obj [] => ['\x7b', '\x7d']
  | ind, .obj (m :: ms) =>
    ('\x7b' :: '\n' :: List.replicate (ind + 2) ' ') ++ jsonDumpMember (ind + 2) m
      ++ jsonDumpMembers (ind + 2) ms ++ ('\n' :: List.replicate ind ' ') ++ ['\x7d']

/-- Remaining array items, each preceded by a comma, newline and indent. -/
def jsonDumpItems : Nat → List JsonVal → List Char
  | _, [] => []
  | ind, v :: vs =>
    (',' :: '\n' :: List.replicate ind ' ') ++ jsonDumpVal ind v ++ jsonDumpItems ind vs

/-- One object member: escaped key, colon, space, value. -/
def jsonDumpMember : Nat → String × JsonVal → List Char
  | ind, (k, v) => jsonDumpString k ++ (':' :: ' ' :: jsonDumpVal ind v)

/-- Remaining object members, each preceded by a comma, newline and indent. -/
def jsonDumpMembers : Nat → List (String × JsonVal) → List Char
  | _, [] => []
  | ind, m :: ms =>
    (',' :: '\n' :: List.replicate ind ' ') ++ jsonDumpMember ind m ++ jsonDumpMembers ind ms

end

/-- Embedding of `json.dumps(parsed, indent=2)`. -/
def jsonDumps2 (v : JsonVal) : String :=
  String.mk (jsonDumpVal 0 v)

/-- Embedding of `_format_value_for_markdown` (documentation_functions.py).
Total: the only failure-prone operation, `json.loads`, sits inside
`try/except Exception: pass`, which falls through to returning the plain
string. -/
def formatValueForMarkdown (value : PyVal) : PyVal :=
  if !pyTruthy value || value == .str "Not configured" then value
  else
    let valueStr := pyStr value
    let stripped := pyStrip valueStr
    if pyStartsWith stripped "<" && pyEndsWith stripped ">" then
      .str ("<details class='description'><summary data-open='Minimize' data-close='...expand...'></summary>\n\n```xml\n"
        ++ stripped ++ "\n```\n\n</details>")
    else if (pyStartsWith stripped "\x7b" && pyEndsWith stripped "\x7d")
        || (pyStartsWith stripped "[" && pyEndsWith stripped "]") then
      match jsonLoads valueStr with
      | some parsed => .str ("\n\n```json\n" ++ jsonDumps2 parsed ++ "\n```\n\n")
      | none => .str valueStr
    else .str valueStr

/-- UTF-8 encoding of one code point, as `str.encode()` produces it. -/
def encChar (c : Char) : List Nat :=
  let n := c.toNat
  if n < 0x80 then [n]
  else if n < 0x800 then [0xC0 + n / 64, 0x80 + n % 64]
  else if n < 0x10000 then [0xE0 + n / 4096, 0x80 + n / 64 % 64, 0x80 + n % 64]
  else [0xF0 + n / 262144, 0x80 + n / 4096 % 64, 0x80 + n / 64 % 64, 0x80 + n % 64]

/-- Python `s.encode()`: the UTF-8 bytes of a string. -/
def utf8Encode (s : String) : List Nat :=
  s.data.flatMap encChar

/-- Python `s.encode('ascii')` (used inside `base64.b64decode` when it is
handed a `str`): fails on any non-ASCII character. -/
def asciiBytes (s : String) : Option (List Nat) :=
  if s.data.all fun c => c.toNat < 0x80 then some (s.data.map Char.toNat) else none

/-- Worker for the UTF-8 decoder, structurally recursive on a fuel that is
at least the input length. -/
def utf8DecodeGo : Nat → List Nat → Option (List Char)
  | 0, [] => some []
  | 0, _ :: _ => none
  | _ + 1, [] => some []
  | fuel + 1, b0 :: rest =>
    if b0 < 0x80 then
      (utf8DecodeGo fuel rest).map fun cs => Char.ofNat b0 :: cs
    else if b0 < 0xC2 then none
    else if b0 < 0xE0 then
      match rest with
      | b1 :: rest2 =>
        if 0x80 ≤ b1 ∧ b1 < 0xC0 then
          (utf8DecodeGo fuel rest2).map fun cs => Char.ofNat ((b0 - 0xC0) * 64 + (b1 - 0x80)) :: cs
        else none
      | [] => none
    else if b0 < 0xF0 then
      match rest with
      | b1 :: b2 :: rest3 =>
        if (0x80 ≤ b1 ∧ b1 < 0xC0) ∧ (0x80 ≤ b2 ∧ b2 < 0xC0) then
          let cp := (b0 - 0xE0) * 4096 + (b1 - 0x80) * 64 + (b2 - 0x80)
          if 0x800 ≤ cp ∧ ¬(0xD800 ≤ cp ∧ cp < 0xE000) then
            (utf8DecodeGo fuel rest3).map fun cs => Char.ofNat cp :: cs
          else none
        else none
      | _ => none
    else if b0 < 0xF5 then
      match rest with
      | b1 :: b2 :: b3 :: rest4 =>
        if (0x80 ≤ b1 ∧ b1 < 0xC0) ∧ (0x80 ≤ b2 ∧ b2 < 0xC0) ∧ (0x80 ≤ b3 ∧ b3 < 0xC0) then
          let cp := (b0 - 0xF0) * 262144 + (b1 - 0x80) * 4096 + (b2 - 0x80) * 64 + (b3 - 0x80)
          if 0x10000 ≤ cp ∧ cp < 0x110000 then
            (utf8DecodeGo fuel rest4).map fun cs => Char.ofNat cp :: cs
          else none
        else none
      | _ => none
    else none

/-- UTF-8 decoder for `bytes.decode("utf-8")`: rejects truncated sequences,
bad continuation bytes, overlong forms, surrogates and out-of-range values. -/
def utf8DecodeList (bs : List Nat) : Option (List Char) :=
  utf8DecodeGo bs.length bs

/-- Value of one base64 alphabet byte (`A-Z`, `a-z`, `0-9`, `+`, `/`). -/
def b64CharVal (b : Nat) : Option Nat :=
  if 65 ≤ b ∧ b ≤ 90 then some (b - 65)
  else if 97 ≤ b ∧ b ≤ 122 then some (b - 71)
  else if 48 ≤ b ∧ b ≤ 57 then some (b + 4)
  else if b = 43 then some 62
  else if b = 47 then some 63
  else none

/-- State machine of `binascii.a2b_base64` in its default non-strict mode, as
`base64.b64decode` calls it: bytes outside the alphabet are ignored, a `=`
once two or three alphabet bytes of the current quad have been seen ends the
data, and input that stops mid-quad is an error (`Incorrect padding`).
`quadPos` is the position inside the current quad, `leftchar` the pending
bits, `pads` the number of `=` bytes seen, `out` the bytes produced so far. -/
def b64Go : List Nat → Nat → Nat → Nat → List Nat → Option (List Nat)
  | [], quadPos, _, _, out => if quadPos = 0 then some out else none
  | b :: rest, quadPos, leftchar, pads, out =>
    if b = 61 then
      if 2 ≤ quadPos ∧ 4 ≤ quadPos + pads + 1 then some out
      else b64Go rest quadPos leftchar (pads + 1) out
    else
      match b64CharVal b with
      | none => b64Go rest quadPos leftchar pads out
      | some v =>
        let lc := leftchar * 64 + v
        match quadPos with
        | 0 => b64Go rest 1 lc pads out
        | 1 => b64Go rest 2 (lc % 16) pads (out ++ [lc / 16])
        | 2 => b64Go rest 3 (lc % 4) pads (out ++ [lc / 4])
        | _ => b64Go rest 0 0 pads (out ++ [lc % 256])

/-- Embedding of `base64.b64decode` on a byte string. -/
def b64decodeBytes (bs : List Nat) : Option (List Nat) :=
  b64Go bs 0 0 0 []

/-- Embedding of `is_base64` (documentation_functions.py): decode the UTF-8
bytes of `s` and report whether the decoded bytes equal those same bytes
(the code comment says "the decoded bytes match the original string"); any
decoding error yields `False`. -/
def isBase64 (s : String) : Bool :=
  match b64decodeBytes (utf8Encode s) with
  | some decoded => decoded == utf8Encode s
  | none => false

/-- Embedding of `is_base64` applied to a non-string scalar: `b64decode`
raises `TypeError` on an `int` or `bool` argument, which the function
catches, returning `False`. -/
def isBase64Val : PyVal → Bool
  | .str s => isBase64 s
  | .int _ => false
  | .bool _ => false

/-- Embedding of `decode_base64` (documentation_functions.py):
`base64.b64decode(data).decode("utf-8")`.  Every failure is an uncaught
exception for its callers: `b64decode` first ASCII-encodes a `str` argument
(raising `UnicodeEncodeError`), a padding/alphabet error raises
`binascii.Error`, and a non-UTF-8 result raises `UnicodeDecodeError`; the
latter two are re-raised as `ValueError("Unable to decode data")`, which no
caller catches. -/
def decodeBase64 (data : String) : Except Unit String :=
  match asciiBytes data with
  | none => .error ()
  | some bs =>
    match b64decodeBytes bs with
    | none => .error ()
    | some ds =>
      match utf8DecodeList ds with
      | some cs => .ok (String.mk cs)
      | none => .error ()

/-- Pure tail of `clean_list.string`: format the (possibly decoded) value and
collapse results longer than 200 characters into a details block. -/
def formatCollapse (s : String) : String :=
  let s2 := pyStr (formatValueForMarkdown (.str s))
  if pyLen s2 > 200 && !pyStartsWith s2 "<details" then
    "<details><summary>Click to expand...</summary>" ++ s2 ++ "</details>"
  else s2

/-- Embedding of the inner function `string` of `clean_list`
(documentation_functions.py): optionally base64-decode, then format and
collapse.  An exception raised by `decode_base64` is caught nowhere in
`string` and propagates (`.error`). -/
def cleanListString (decode : Bool) (s : String) : Except Unit String :=
  match (if decode && isBase64 s then decodeBase64 s else .ok s) with
  | .error e => .error e
  | .ok s1 => .ok (formatCollapse s1)

/-- Number of leading newline tokens of the regex alternation `(\r\n|\r|\n)`
(tried in that order, greedily) and the input remaining after them. -/
def newlineRun : List Char → Nat × List Char
  | '\x0d' :: '\n' :: t => let (n, r) := newlineRun t; (n + 1, r)
  | '\x0d' :: t => let (n, r) := newlineRun t; (n + 1, r)
  | '\n' :: t => let (n, r) := newlineRun t; (n + 1, r)
  | cs => (0, cs)

/-- Cheap bound used for termination: `newlineRun` consumes one or two
characters per counted token. -/
theorem newlineRun_length (cs : List Char) : (newlineRun cs).2.length + (newlineRun cs).1 ≤ cs.length := by
  induction cs using newlineRun.induct <;> simp_all [newlineRun] <;> omega

/-- Worker for `collapseNewlineRuns`, structurally recursive on a fuel that
is at least the input length (each step consumes at least one character, so
the fuel never runs out when the wrapper supplies it). -/
def collapseNewlineRunsGo : Nat → List Char → List Char
  | 0, _ => []
  | _ + 1, [] => []
  | fuel + 1, c :: t =>
    match newlineRun (c :: t) with
    | (0, _) => c :: collapseNewlineRunsGo fuel t
    | (1, rest) =>
      (c :: t).take ((c :: t).length - rest.length) ++ collapseNewlineRunsGo fuel rest
    | (_ + 2, rest) => '\x0d' :: '\n' :: collapseNewlineRunsGo fuel rest

/-- Model of `re.sub(r'((\r\n|\r|\n){2,})', '\r\n', description)`: a run of
two or more newline tokens collapses to one `\r\n`; a single token and all
other characters are kept. -/
def collapseNewlineRuns (cs : List Char) : List Char :=
  collapseNewlineRunsGo (cs.length + 1) cs

/-- Python `s.rstrip(' \t')`. -/
def pyRstripSpaceTab (cs : List Char) : List Char :=
  (cs.reverse.dropWhile fun c => c = ' ' || c = '\t').reverse

/-- Description post-processing of `extract_setting`
(documentation_functions.py): collapse repeated newlines, strip trailing
spaces/tabs, and wrap descriptions longer than 60 characters in a collapsible
details block. -/
def formatDescription (description : String) : String :=
  let d := String.mk (pyRstripSpaceTab (collapseNewlineRuns description.data))
  if pyLen d > 60 then
    "<details><summary>...expand...</summary>" ++ d ++ "</details>"
  else d

/-- One element of a definition's `options` list, as the walker reads it:
each field models a dict key that may be absent. -/
structure OptionEntry where
  value : Option PyVal := none
  itemId : Option PyVal := none
  displayName : Option String := none
  name : Option String := none
deriving DecidableEq, Repr

/-- One setting-definition dict as the documentation module reads it (from a
policy's `settingDefinitions` list in the backup file).  Every field models a
dict key that may be absent; the entries written by the backup enricher carry
exactly the keys `id`, `displayName` and `description` (see
`buildSettingDefinitions` below), so for those `options` and
`categoryDisplayName` are `none`. -/
structure SettingDefinition where
  id : Option String := none
  displayName : Option String := none
  description : Option String := none
  options : Option (List OptionEntry) := none
  categoryDisplayName : Option String := none
deriving DecidableEq, Repr

/-- Lookup in a Python dict built by a comprehension keyed on `d["id"]`:
a later entry with the same key overwrites an earlier one. -/
def defDictGet (defs : List SettingDefinition) (k : String) : Option SettingDefinition :=
  defs.reverse.find? fun d => d.id == some k

/-- Resolution step of `extract_setting`:
`parent_definitions.get(id) or definitions_lookup.get(id, {})`, where a miss
in the parent dict falls back to the global lookup and a miss there yields
the empty dict (modelled as `none`). -/
def resolveDefinition (parentDefs lookupDefs : List SettingDefinition) (id : String) :
    Option SettingDefinition :=
  match defDictGet parentDefs id with
  | some d => some d
  | none => defDictGet lookupDefs id

/-- Row label: `definition.get("displayName", _format_setting_name(id))`. -/
def rowDisplayName (definition : Option SettingDefinition) (id : String) : String :=
  (definition.bind fun d => d.displayName).getD (formatSettingName id)

/-- Row description: `definition.get("description", "")` post-processed by
`formatDescription`. -/
def rowDescription (definition : Option SettingDefinition) : String :=
  formatDescription ((definition.bind fun d => d.description).getD "")

/-- Python `a or b` on two optional strings (an absent or empty left operand
yields the right operand). -/
def pyOrStr (a b : Option String) : Option String :=
  match a with
  | some s => if s.data.isEmpty then b else some s
  | none => b

/-- One row of the rendered settings table: `[Setting, Value, Description]`. -/
structure Row where
  name : String
  value : PyVal
  description : String
deriving DecidableEq, Repr

/-- One node of a policy's `settingInstance` tree.  The variant is the value
container present on the dict: `simpleSettingValue`,
`simpleSettingCollectionValue` (its item values listed directly),
`choiceSettingValue` (selected value plus child instances), or
`groupSettingCollectionValue` (a list of groups, each a list of child
instances); `unconfigured` models a node carrying none of the four keys. -/
inductive SettingInstance where
  | simple (settingDefinitionId : String) (value : PyVal)
  | simpleCollection (settingDefinitionId : String) (values : List PyVal)
  | choice (settingDefinitionId : String) (value : PyVal) (children : List SettingInstance)
  | groupCollection (settingDefinitionId : String) (groups : List (List SettingInstance))
  | unconfigured (settingDefinitionId : String)
deriving Repr

/-- Definition id carried by a node. -/
def SettingInstance.defId : SettingInstance → String
  | .simple id _ => id
  | .simpleCollection id _ => id
  | .choice id _ _ => id
  | .groupCollection id _ => id
  | .unconfigured id => id

mutual

/-- Embedding of the recursive `extract_setting` inside
`_extract_setting_rows_for_category` (documentation_functions.py). -/
def extractSetting (pd lu : List SettingDefinition) : SettingInstance → List Row
  | .simple id v =>
    let definition := resolveDefinition pd lu id
    let formattedValue :=
      formatValueForMarkdown (if v == PyVal.str "" then .str "Not configured" else v)
    [⟨rowDisplayName definition id, formattedValue, rowDescription definition⟩]
  | .simpleCollection id items =>
    let definition := resolveDefinition pd lu id
    if items.isEmpty then
      [⟨rowDisplayName definition id, .str "Not configured", rowDescription definition⟩]
    else
      let values := (items.filter fun v => v != PyVal.str "").map pyStr
      let formattedValue :=
        if values.isEmpty then formatValueForMarkdown (.str "Not configured")
        else
          formatValueForMarkdown
            (.str ("\n\n```\n" ++ String.mk ((values.map String.data).intersperse ['\n']).flatten ++ "\n```\n"))
      [⟨rowDisplayName definition id, formattedValue, rowDescription definition⟩]
  | .choice id v children =>
    let definition := resolveDefinition pd lu id
    let optionDisplayName : Option String :=
      if pyTruthy v then
        match definition.bind fun d => d.options with
        | some opts =>
          match opts.find? fun o => o.value == some v || o.itemId == some v with
          | some o => pyOrStr o.displayName o.name
          | none => none
        | none => none
      else none
    let chosen : PyVal :=
      match optionDisplayName with
      | some s => if s.data.isEmpty then (if pyTruthy v then v else .str "Not configured") else .str s
      | none => if pyTruthy v then v else .str "Not configured"
    ⟨rowDisplayName definition id, formatValueForMarkdown chosen, rowDescription definition⟩
      :: extractChildren pd lu children
  | .groupCollection id gs =>
    let definition := resolveDefinition pd lu id
    match extractGroups pd lu gs with
    | [] => [⟨rowDisplayName definition id, .str "Collection value", rowDescription definition⟩]
    | rs => rs
  | .unconfigured id =>
    let definition := resolveDefinition pd lu id
    [⟨rowDisplayName definition id, .str "Not configured", rowDescription definition⟩]

/-- The walker's loop over the groups of a `groupSettingCollectionValue`. -/
def extractGroups (pd lu : List SettingDefinition) : List (List SettingInstance) → List Row
  | [] => []
  | g :: gs => extractChildren pd lu g ++ extractGroups pd lu gs

/-- The walker's loop over a list of child instances. -/
def extractChildren (pd lu : List SettingDefinition) : List SettingInstance → List Row
  | [] => []
  | c :: cs => extractSetting pd lu c ++ extractChildren pd lu cs

end

mutual

/-- Count of reachable Simple, SimpleCollection and Choice nodes — the claim
of the specification's Completeness property. -/
def sccCount : SettingInstance → Nat
  | .simple _ _ => 1
  | .simpleCollection _ _ => 1
  | .choice _ _ children => 1 + sccCountChildren children
  | .groupCollection _ gs => sccCountGroups gs
  | .unconfigured _ => 0

/-- Count over the groups of a GroupCollection node. -/
def sccCountGroups : List (List SettingInstance) → Nat
  | [] => 0
  | g :: gs => sccCountChildren g + sccCountGroups gs

/-- Count over a list of child instances. -/
def sccCountChildren : List SettingInstance → Nat
  | [] => 0
  | c :: cs => sccCount c + sccCountChildren cs

end

mutual

/-- Row count the code actually produces: one row per reachable Simple,
SimpleCollection, Choice and no-value-container node, plus one fallback row
for each reachable GroupCollection node none of whose groups has a child. -/
def rowCount : SettingInstance → Nat
  | .simple _ _ => 1
  | .simpleCollection _ _ => 1
  | .choice _ _ children => 1 + rowCountChildren children
  | .groupCollection _ gs =>
    (if (gs.flatMap fun g => g).isEmpty then 1 else 0) + rowCountGroups gs
  | .unconfigured _ => 1

/-- Row count over the groups of a GroupCollection node. -/
def rowCountGroups : List (List SettingInstance) → Nat
  | [] => 0
  | g :: gs => rowCountChildren g + rowCountGroups gs

/-- Row count over a list of child instances. -/
def rowCountChildren : List SettingInstance → Nat
  | [] => 0
  | c :: cs => rowCount c + rowCountChildren cs

end

mutual

/-- Embedding of `collect_definition_ids` (SettingsCatalog.py), linearised in
pre-order: every reachable node contributes its `settingDefinitionId` (the
traversal recurses through `choiceSettingValue`/`children` and through the
groups of `groupSettingCollectionValue`; the scalar value containers hold no
further ids).  The Python function accumulates these into a `set`. -/
def collectIds : SettingInstance → List String
  | .simple id _ => [id]
  | .simpleCollection id _ => [id]
  | .choice id _ children => id :: collectIdsChildren children
  | .groupCollection id gs => id :: collectIdsGroups gs
  | .unconfigured id => [id]

/-- Id collection over the groups of a GroupCollection node. -/
def collectIdsGroups : List (List SettingInstance) → List String
  | [] => []
  | g :: gs => collectIdsChildren g ++ collectIdsGroups gs

/-- Id collection over a list of child instances. -/
def collectIdsChildren : List SettingInstance → List String
  | [] => []
  | c :: cs => collectIds c ++ collectIdsChildren cs

end

/-- Deduplication keeping the first occurrence of each element, the order a
Python `set` is modelled to enumerate in here.  (CPython's actual `set`
iteration order is interpreter-defined; every property proved below about
the resulting lookups is order-independent.) -/
def firstDedup : List String → List String
  | [] => []
  | x :: xs => x :: (firstDedup xs).filter fun y => y ≠ x

/-- Graph API response for `/beta/deviceManagement/configurationSettings/{id}`
as `_enrich_settings_with_definitions` consumes it.  `categoryId` models the
category reference such a definition exposes; the enrichment code never reads
it. -/
structure GraphDefinition where
  id : Option String := none
  displayName : Option String := none
  description : Option String := none
  categoryId : Option String := none
deriving DecidableEq, Repr

/-- Value stored in `definition_map`: exactly the two keys the code copies
out of a definition response. -/
structure DefMapEntry where
  displayName : String
  description : String
deriving DecidableEq, Repr

/-- One element of a policy's `settings` list. -/
structure Setting where
  settingInstance : Option SettingInstance := none
  settingDefinitions : Option (List SettingDefinition) := none
deriving Repr

/-- The distinct definition ids of one policy, in first-occurrence order:
the `definition_ids` set of `_enrich_settings_with_definitions`. -/
def policyDefinitionIds (settings : List Setting) : List String :=
  firstDedup (settings.flatMap fun s =>
    match s.settingInstance with
    | some inst => collectIds inst
    | none => [])

/-- Sequence of `FetchDefinition` (`make_graph_request`) calls issued while
enriching one policy: one call per element of `definition_ids` (the chunking
by 20 only groups the same per-id calls).  A failed call is logged and
skipped but was still issued. -/
def policyLookupTrace (settings : List Setting) : List String :=
  policyDefinitionIds settings

/-- Sequence of `FetchDefinition` calls issued by a whole run: the backup
module's `main` enriches each policy's settings independently. -/
def runLookupTrace (run : List (List Setting)) : List String :=
  run.flatMap policyLookupTrace

/-- Dict write-then-read model: `definition_map[id] = entry` appends, lookup
takes the latest entry for the key. -/
def dictGet {α : Type} (m : List (String × α)) (k : String) : Option α :=
  (m.reverse.find? fun e => e.1 == k).map fun e => e.2

/-- Embedding of the `definition_map` construction
(SettingsCatalog.py, `_enrich_settings_with_definitions`): each response with
an `id` maps it to its display name and description — and nothing else; no
category lookup chain exists in the code. -/
def buildDefinitionMap (responses : List GraphDefinition) : List (String × DefMapEntry) :=
  responses.foldl
    (fun m d =>
      match d.id with
      | some i => m ++ [(i, ⟨d.displayName.getD "", d.description.getD ""⟩)]
      | none => m)
    []

/-- Emission step of `build_setting_definitions` for one node id. -/
def buildStep (dm : List (String × DefMapEntry)) (id : String) (seen : List String) :
    List SettingDefinition × List String :=
  match dictGet dm id with
  | some e =>
    if id ∈ seen then ([], seen)
    else ([{ id := some id, displayName := some e.displayName, description := some e.description }], seen ++ [id])
  | none => ([], seen)

mutual

/-- Embedding of `build_setting_definitions` (SettingsCatalog.py): walk the
instance tree in pre-order and emit, for each `settingDefinitionId` that is
in `definition_map` and not yet in `seen`, the dict
`\x7b"id": ..., "displayName": ..., "description": ...\x7d`.  Returns the
built list and the updated `seen` set (a list in first-seen order). -/
def buildSettingDefinitions (dm : List (String × DefMapEntry)) :
    SettingInstance → List String → List SettingDefinition × List String
  | .simple id _, seen => buildStep dm id seen
  | .simpleCollection id _, seen => buildStep dm id seen
  | .choice id _ children, seen =>
    let (ds, seen1) := buildStep dm id seen
    let (ds2, seen2) := buildDefsChildren dm children seen1
    (ds ++ ds2, seen2)
  | .groupCollection id gs, seen =>
    let (ds, seen1) := buildStep dm id seen
    let (ds2, seen2) := buildDefsGroups dm gs seen1
    (ds ++ ds2, seen2)
  | .unconfigured id, seen => buildStep dm id seen

/-- The walk over the groups of a GroupCollection node. -/
def buildDefsGroups (dm : List (String × DefMapEntry)) :
    List (List SettingInstance) → List String → List SettingDefinition × List String
  | [], seen => ([], seen)
  | g :: gs, seen =>
    let (ds, seen1) := buildDefsChildren dm g seen
    let (ds2, seen2) := buildDefsGroups dm gs seen1
    (ds ++ ds2, seen2)

/-- The walk over a list of child instances. -/
def buildDefsChildren (dm : List (String × DefMapEntry)) :
    List SettingInstance → List String → List SettingDefinition × List String
  | [], seen => ([], seen)
  | c :: cs, seen =>
    let (ds, seen1) := buildSettingDefinitions dm c seen
    let (ds2, seen2) := buildDefsChildren dm cs seen1
    (ds ++ ds2, seen2)

end

/-- Embedding of `_enrich_settings_with_definitions` (SettingsCatalog.py).
`fetch` is the external `FetchDefinition` primitive; `none` models a per-id
lookup failure (logged as a warning, the id skipped).  Each setting with a
`settingInstance` receives a `settingDefinitions` key; the others are passed
through unchanged. -/
def enrichSettingsWithDefinitions (fetch : String → Option GraphDefinition)
    (settings : List Setting) : List Setting :=
  if settings.isEmpty then settings
  else
    let definitionIds := policyDefinitionIds settings
    if definitionIds.isEmpty then settings
    else
      let responses := definitionIds.filterMap fetch
      let dm := buildDefinitionMap responses
      settings.map fun s =>
        match s.settingInstance with
        | some inst =>
          { s with settingDefinitions := some (buildSettingDefinitions dm inst []).1 }
        | none => s

/-- Code-point lexicographic comparison, `a <= b` as Python compares `str`. -/
def lexLe : List Char → List Char → Bool
  | [], _ => true
  | _ :: _, [] => false
  | a :: as, b :: bs =>
    if a.toNat < b.toNat then true
    else if b.toNat < a.toNat then false
    else lexLe as bs

/-- Python string comparison `a <= b`. -/
def pyStrLe (a b : String) : Bool :=
  lexLe a.data b.data

/-- Embedding of `html_table` (documentation_functions.py). -/
def htmlTable (headers : List String) (rows : List (List String)) : String :=
  "<table>\n<thead><tr>"
    ++ String.mk (headers.flatMap fun h => ("<th>" ++ h ++ "</th>").data)
    ++ "</tr></thead>\n<tbody>\n"
    ++ String.mk (rows.flatMap fun row =>
        ("<tr>" ++ String.mk (row.flatMap fun cell => ("<td>" ++ cell ++ "</td>").data) ++ "</tr>\n").data)
    ++ "</tbody>\n</table>"

/-- Embedding of `main_def = setting.get("settingDefinitions", [\x7b\x7d])[0]`
(documentation_functions.py, `_create_settings_tables`): an absent key yields
the default list's empty dict, but a present *empty* list makes the `[0]`
subscript raise `IndexError`. -/
def mainDef (s : Setting) : Except Unit SettingDefinition :=
  match s.settingDefinitions with
  | none => .ok {}
  | some [] => .error ()
  | some (d :: _) => .ok d

/-- Category key used for grouping: `main_def.get("categoryDisplayName",
"Other Settings")`. -/
def categoryOf (d : SettingDefinition) : String :=
  d.categoryDisplayName.getD "Other Settings"

/-- The flattened `definitions_lookup` built by `build_definitions_lookup`
over every setting's `settingDefinitions` (later entries overwrite earlier
ones, which `defDictGet` models by searching from the end). -/
def buildDefinitionsLookup (settings : List Setting) : List SettingDefinition :=
  settings.flatMap fun s => s.settingDefinitions.getD []

/-- Append `rows` to the entry of `category` in the insertion-ordered
category map, creating the entry at the end if absent — Python dict insertion
semantics. -/
def categoryMapAdd (m : List (String × List Row)) (category : String) (rows : List Row) :
    List (String × List Row) :=
  if m.any fun e => e.1 == category then
    m.map fun e => if e.1 == category then (e.1, e.2 ++ rows) else e
  else m ++ [(category, rows)]

/-- Embedding of `_create_settings_tables` (documentation_functions.py) up to
the point the per-category row lists are fixed: group every setting's
extracted rows under its main definition's category, then order categories
alphabetically, case-insensitively.  The `Except` propagates the uncaught
`IndexError` of `mainDef`. -/
def createSettingsTables (settings : List Setting) : Except Unit (List (String × List Row)) := do
  if settings.isEmpty then .ok []
  else
    let lu := buildDefinitionsLookup settings
    let cm ← settings.foldlM
      (fun m setting => do
        let md ← mainDef setting
        let category := categoryOf md
        let pd := setting.settingDefinitions.getD []
        let rows :=
          match setting.settingInstance with
          | some inst => extractSetting pd lu inst
          | none => []
        pure (categoryMapAdd m category rows))
      []
    .ok (List.insertionSort (fun a b => pyStrLe (pyLower a.1) (pyLower b.1) = true) cm)

/-- One assignment target as `assignment_table` reads it. -/
structure AssignmentTarget where
  odataType : String := ""
  groupName : Option String := none
  filterType : String := ""
  filterId : String := ""
deriving DecidableEq, Repr

/-- One assignment record. -/
structure Assignment where
  target : AssignmentTarget
  intent : Option String := none
deriving DecidableEq, Repr

/-- Row `[intent, target, filter type, filter name]` computed for one
assignment by `assignment_table` (documentation_functions.py). -/
def assignmentRow (a : Assignment) : List String :=
  let target := ""
  let intent := ""
  let (target, intent) :=
    if a.target.odataType = "#microsoft.graph.allDevicesAssignmentTarget" then
      ("All Devices", "Include")
    else (target, intent)
  let (target, intent) :=
    if a.target.odataType = "#microsoft.graph.allLicensedUsersAssignmentTarget" then
      ("All Users", "Include")
    else (target, intent)
  let target :=
    match a.target.groupName with
    | some g => g
    | none => target
  let intent :=
    match a.intent with
    | some i =>
      if i ≠ "apply" ∧ i ≠ "" then i
      else
        if a.target.odataType = "#microsoft.graph.groupAssignmentTarget" then "Include"
        else if a.target.odataType = "#microsoft.graph.exclusionGroupAssignmentTarget" then "Exclude"
        else intent
    | none =>
      if a.target.odataType = "#microsoft.graph.groupAssignmentTarget" then "Include"
      else if a.target.odataType = "#microsoft.graph.exclusionGroupAssignmentTarget" then "Exclude"
      else intent
  [intent, target, a.target.filterType, a.target.filterId]

/-- Sort order of `assignment_list.sort(key=lambda x: x[0], reverse=True)`:
descending, lexicographically, on the intent column. -/
def intentDescRel (a b : List String) : Prop :=
  pyStrLe (b.headD "") (a.headD "") = true

instance : DecidableRel intentDescRel := fun a b => by
  unfold intentDescRel; infer_instance

/-- The assignment rows in the order the table renders them: built in input
order, then stably sorted descending on the intent column (Python's stable
`list.sort` with `reverse=True` keeps equal keys in input order, exactly as
`List.insertionSort` does here). -/
def assignmentRows (assignments : List Assignment) : List (List String) :=
  List.insertionSort intentDescRel (assignments.map assignmentRow)

/-- Embedding of `assignment_table` (documentation_functions.py): empty
output when the record has no `assignments` key or the list is empty (the
loop body never assigns `table`), else the HTML table over the sorted rows. -/
def assignmentTable (assignments : Option (List Assignment)) : String :=
  match assignments with
  | none => ""
  | some l =>
    if l.isEmpty then ""
    else htmlTable ["intent", "target", "filter type", "filter name"] (assignmentRows l)

/-- Component of a path after its last slash: `str(file).split("/")[-1]`. -/
def lastSlashComponent (s : String) : String :=
  String.mk (s.data.reverse.takeWhile (fun c => c ≠ '/')).reverse

/-- Embedding of `get_docs_md_files` (documentation_functions.py) on a
non-Windows system: `scanned` is the list of paths `glob.glob` returned for
`configpath + "/docs/*.md"`, in the directory-enumeration order glob yields
(the code applies no sort). -/
def getDocsMdFiles (scanned : List String) : List String :=
  scanned.map fun f => "./docs/" ++ lastSlashComponent f

/-- Embedding of the body written by `split_per_config_index_md`
(documentation_functions.py): two header lines, then for each file the five
pieces `[`, basename, `](`, space-encoded path, `) \n\n`. -/
def splitPerConfigIndexLines (scanned : List String) (header : String) : List String :=
  ["# " ++ header ++ " \n\n", "## File index \n\n"]
    ++ (getDocsMdFiles scanned).flatMap fun f =>
      ["[", lastSlashComponent f, "](", pyReplaceChar ' ' "%20" f, ") \n\n"]

/-- Names under which the index lists the per-config files, in listing
order. -/
def indexEntryNames (scanned : List String) : List String :=
  (getDocsMdFiles scanned).map lastSlashComponent

/-- The parts of one settings-catalog policy record that
`document_settings_catalog` consumes. -/
structure Policy where
  name : String := "Unknown Policy"
  assignments : Option (List Assignment) := none
  settings : List Setting := []
deriving Repr

/-- Per-file body of `document_settings_catalog`
(documentation_functions.py) for one policy, up to the settings tables: the
whole body sits in `try/except Exception`, so an uncaught exception —
`createSettingsTables` is the body's only raise site in this model — makes
the function print a debug line and skip the policy's section entirely
(`none`); otherwise the section is rendered (`some`, carrying the assignment
table and the per-category rows that get written). -/
def docSettingsCatalogPolicy (p : Policy) : Option (String × List (String × List Row)) :=
  match createSettingsTables p.settings with
  | .ok tables => some (assignmentTable p.assignments, tables)
  | .error _ => none

/-- The documentation loop over all policy files of one type: each file is
processed independently inside its own `try/except`. -/
def docSettingsCatalogBatch (ps : List Policy) : List (Option (String × List (String × List Row))) :=
  ps.map docSettingsCatalogPolicy

theorem lexLe_total : ∀ a b, lexLe a b = true ∨ lexLe b a = true := by
  intro a
  induction a with
  | nil => intro b; left; simp [lexLe]
  | cons x xs ih =>
    intro b
    cases b with
    | nil => right; simp [lexLe]
    | cons y ys =>
      simp only [lexLe]
      rcases Nat.lt_trichotomy x.toNat y.toNat with h | h | h
      · left; simp [h]
      · simp [h, Nat.lt_irrefl]
        exact ih ys
      · right; simp [h]

theorem lexLe_trans :
    ∀ a b c, lexLe a b = true → lexLe b c = true → lexLe a c = true := by
  intro a
  induction a with
  | nil => intro b c _ _; simp [lexLe]
  | cons x xs ih =>
    intro b c hab hbc
    cases b with
    | nil => simp [lexLe] at hab
    | cons y ys =>
      cases c with
      | nil => simp [lexLe] at hbc
      | cons z zs =>
        simp only [lexLe] at hab hbc ⊢
        by_cases h1 : x.toNat < y.toNat <;> by_cases h2 : y.toNat < z.toNat
        · rw [if_pos (by omega)]
        · rw [if_neg h2] at hbc
          by_cases h3 : z.toNat < y.toNat
          · rw [if_pos h3] at hbc; exact absurd hbc (by simp)
          · rw [if_pos (by omega)]
        · rw [if_neg h1] at hab
          by_cases h3 : y.toNat < x.toNat
          · rw [if_pos h3] at hab; exact absurd hab (by simp)
          · rw [if_pos (by omega)]
        · rw [if_neg h1] at hab
          rw [if_neg h2] at hbc
          by_cases h3 : y.toNat < x.toNat
          · rw [if_pos h3] at hab; exact absurd hab (by simp)
          · by_cases h4 : z.toNat < y.toNat
            · rw [if_pos h4] at hbc; exact absurd hbc (by simp)
            · rw [if_neg h3] at hab
              rw [if_neg h4] at hbc
              rw [if_neg (by omega), if_neg (by omega)]
              exact ih ys zs hab hbc

instance : IsTotal (List String) intentDescRel :=
  ⟨fun a b => by
    unfold intentDescRel pyStrLe
    rcases lexLe_total (a.headD "").data (b.headD "").data with h | h
    · right; exact h
    · left; exact h⟩

instance : IsTrans (List String) intentDescRel :=
  ⟨fun a b c hab hbc => by
    unfold intentDescRel pyStrLe at *
    exact lexLe_trans _ _ _ hbc hab⟩

/-- C10: for every assignment list, the rows of the rendered assignment table
are sorted on the intent column in descending code-point-lexicographic order
(so an "Include" row never follows an "Exclude" row), whatever the input
order; the sorted rows are a permutation of the rows computed from the
assignments. -/
theorem assignment_rows_sorted_by_intent_desc (assignments : List Assignment)
    (hne : assignments ≠ []) :
    List.Sorted intentDescRel (assignmentRows assignments) ∧
    List.Pairwise
      (fun r s => ¬(r.headD "" = "Exclude" ∧ s.headD "" = "Include"))
      (assignmentRows assignments) ∧
    (assignmentRows assignments).Perm (assignments.map assignmentRow) := by
  refine ⟨List.sorted_insertionSort intentDescRel _, ?_, List.perm_insertionSort intentDescRel _⟩
  refine List.Pairwise.imp ?_ (List.sorted_insertionSort intentDescRel (assignments.map assignmentRow))
  intro r s h hc
  rw [intentDescRel, hc.1, hc.2] at h
  exact absurd h (by decide)

/-- Witness for C10: a record listing an exclusion-group assignment before an
all-devices assignment still renders "Include" before "Exclude". -/
theorem assignment_rows_sorted_by_intent_desc_witness :
    ([{ target := { odataType := "#microsoft.graph.exclusionGroupAssignmentTarget",
                    groupName := some "G1", filterType := "none", filterId := "f1" } },
       { target := { odataType := "#microsoft.graph.allDevicesAssignmentTarget",
                     filterType := "none", filterId := "f2" } }] : List Assignment) ≠ [] ∧
    assignmentRows
      [{ target := { odataType := "#microsoft.graph.exclusionGroupAssignmentTarget",
                     groupName := some "G1", filterType := "none", filterId := "f1" } },
       { target := { odataType := "#microsoft.graph.allDevicesAssignmentTarget",
                     filterType := "none", filterId := "f2" } }]
      = [["Include", "All Devices", "none", "f2"], ["Exclude", "G1", "none", "f1"]] ∧
    List.Sorted intentDescRel
      (assignmentRows
        [{ target := { odataType := "#microsoft.graph.exclusionGroupAssignmentTarget",
                       groupName := some "G1", filterType := "none", filterId := "f1" } },
         { target := { odataType := "#microsoft.graph.allDevicesAssignmentTarget",
                       filterType := "none", filterId := "f2" } }]) := by
  refine ⟨by decide, by decide, ?_⟩
  exact (assignment_rows_sorted_by_intent_desc _ (by decide)).1

theorem lastSlashComponent_docs (f : String) :
    lastSlashComponent ("./docs/" ++ lastSlashComponent f) = lastSlashComponent f := by
  have hmk : ∀ l : List Char, (String.mk l).data = l := fun _ => rfl
  have hself : List.takeWhile (fun c => decide (c ≠ '/'))
      (f.data.reverse.takeWhile fun c => decide (c ≠ '/'))
      = f.data.reverse.takeWhile fun c => decide (c ≠ '/') :=
    List.takeWhile_eq_self_iff.mpr fun x hx =>
      @List.mem_takeWhile_imp Char (fun c => decide (c ≠ '/')) f.data.reverse x hx
  unfold lastSlashComponent
  rw [String.data_append, hmk, List.reverse_append, List.reverse_reverse,
    List.takeWhile_append, hself, if_pos rfl,
    show List.takeWhile (fun c => decide (c ≠ '/')) "./docs/".data.reverse = [] from by decide,
    List.append_nil]

/-- C9 as stated is false: `get_docs_md_files` applies no sort to the glob
result, so a directory scan that enumerates `b policy.md` before
`a policy.md` yields an index listing the files in that unsorted order. -/
theorem index_order_counterexample :
    indexEntryNames ["cfg/docs/b policy.md", "cfg/docs/a policy.md"]
      = ["b policy.md", "a policy.md"] ∧
    ¬ List.Pairwise (fun a b => pyStrLe a b = true)
        (indexEntryNames ["cfg/docs/b policy.md", "cfg/docs/a policy.md"]) := by
  constructor
  · decide
  · decide

/-- C9 amended: the regenerated index lists every per-config Markdown file of
the type, one entry each, but in the directory-scan order `glob.glob`
returned them in — the code applies no sort, so the index is sorted by
filename exactly when the scan order already is. -/
theorem index_lists_files_in_scan_order (scanned : List String) :
    indexEntryNames scanned = scanned.map lastSlashComponent ∧
    (List.Pairwise (fun a b => pyStrLe a b = true) (scanned.map lastSlashComponent) →
      List.Pairwise (fun a b => pyStrLe a b = true) (indexEntryNames scanned)) := by
  have heq : indexEntryNames scanned = scanned.map lastSlashComponent := by
    unfold indexEntryNames getDocsMdFiles
    rw [List.map_map]
    exact List.map_congr_left fun f _ => lastSlashComponent_docs f
  exact ⟨heq, fun h => heq ▸ h⟩

theorem extractGroups_nil_of_flat_nil (pd lu : List SettingDefinition) :
    ∀ gs : List (List SettingInstance), (gs.flatMap fun g => g) = [] →
      extractGroups pd lu gs = [] := by
  intro gs
  induction gs with
  | nil => intro _; rfl
  | cons g gs ih =>
    intro h
    rw [List.flatMap_cons] at h
    obtain ⟨hg, hgs⟩ := List.append_eq_nil.mp h
    subst hg
    simp [extractGroups, extractChildren, ih hgs]

theorem extract_ne_nil_all (pd lu : List SettingDefinition) :
    (∀ t, extractSetting pd lu t ≠ []) ∧
    (∀ gs, extractGroups pd lu gs = [] → (gs.flatMap fun g => g) = []) ∧
    (∀ cs, extractChildren pd lu cs = [] → cs = []) := by
  refine extractSetting.mutual_induct pd lu _ _ _ ?_ ?_ ?_ ?_ ?_ ?_ ?_ ?_ ?_ ?_ ?_
  · intro id v; simp [extractSetting]
  · intro id items h; simp [extractSetting, h]
  · intro id items h; simp [extractSetting, h]
  · intro id v cs _; simp [extractSetting]
  · intro id gs hnil _; simp [extractSetting, hnil]
  · intro id gs hne _
    rcases h : extractGroups pd lu gs with _ | ⟨r, rs⟩
    · exact absurd h hne
    · simp [extractSetting, h]
  · intro id; simp [extractSetting]
  · exact fun _ => rfl
  · intro c cs ihc ihcs h
    rw [extractChildren] at h
    exact absurd (List.append_eq_nil.mp h).1 ihc
  · exact fun _ => rfl
  · intro g gs ihg ihgs h
    rw [extractGroups] at h
    obtain ⟨hg, hgs⟩ := List.append_eq_nil.mp h
    rw [List.flatMap_cons, ihg hg, ihgs hgs]
    rfl

theorem extract_length_all (pd lu : List SettingDefinition) :
    (∀ t, (extractSetting pd lu t).length = rowCount t) ∧
    (∀ gs, (extractGroups pd lu gs).length = rowCountGroups gs) ∧
    (∀ cs, (extractChildren pd lu cs).length = rowCountChildren cs) := by
  refine extractSetting.mutual_induct pd lu _ _ _ ?_ ?_ ?_ ?_ ?_ ?_ ?_ ?_ ?_ ?_ ?_
  · intro id v; simp [extractSetting, rowCount]
  · intro id items h; simp [extractSetting, rowCount, h]
  · intro id items h; simp [extractSetting, rowCount, h]
  · intro id v cs ih; simp [extractSetting, rowCount, ih]; omega
  · intro id gs hnil ih
    have hflat := (extract_ne_nil_all pd lu).2.1 gs hnil
    rw [hnil] at ih
    simp [extractSetting, rowCount, hnil, hflat, ← ih]
  · intro id gs hne ih
    have hflat : ¬(gs.flatMap fun g => g) = [] := fun h =>
      hne (extractGroups_nil_of_flat_nil pd lu gs h)
    rcases h : extractGroups pd lu gs with _ | ⟨r, rs⟩
    · exact absurd h hne
    · rw [h] at ih
      simp [extractSetting, rowCount, h, hflat, ih]
  · intro id; simp [extractSetting, rowCount]
  · rfl
  · intro c cs ihc ihcs
    simp [extractChildren, rowCountChildren, ihc, ihcs]
  · rfl
  · intro g gs ihg ihgs
    simp [extractGroups, rowCountGroups, ihg, ihgs]

/-- C2 as stated is false on a GroupCollection node with no children: the
walker emits one "Collection value" fallback row for it, although zero
Simple, SimpleCollection or Choice nodes are reachable. -/
theorem walker_completeness_counterexample :
    extractSetting [] [] (.groupCollection "top_level_group" [])
      = [⟨"Top Level Group", .str "Collection value", ""⟩] ∧
    sccCount (.groupCollection "top_level_group" []) = 0 ∧
    (extractSetting [] [] (.groupCollection "top_level_group" [])).length
      ≠ sccCount (.groupCollection "top_level_group" []) := by
  refine ⟨by decide, by decide, by decide⟩

/-- C2 amended: for every setting-instance tree and any definition tables,
the number of Rows the walker emits equals the number of reachable Simple,
SimpleCollection and Choice nodes, plus one Row for each reachable node with
no recognised value container, plus one "Collection value" Row for each
reachable GroupCollection none of whose groups has a child (`rowCount`
counts exactly these); a GroupCollection with at least one child anywhere in
its groups contributes no Row of its own. -/
theorem walker_row_count (pd lu : List SettingDefinition) (t : SettingInstance) :
    (extractSetting pd lu t).length = rowCount t :=
  (extract_length_all pd lu).1 t

/-- C5 as stated is false: for the id `"x_y_z_setting"` (four underscore
segments) the code keeps only the LAST TWO segments, so the fallback label is
`"Z Setting"`, not `"Y Z Setting"`. -/
theorem fallback_name_counterexample :
    extractSetting [] [] (.simple "x_y_z_setting" (.str "v"))
      = [⟨"Z Setting", .str "v", ""⟩] ∧
    formatSettingName "x_y_z_setting" = "Z Setting" ∧
    "Z Setting" ≠ "Y Z Setting" := by
  refine ⟨by decide, by decide, by decide⟩

/-- C5 amended: when no definition entry exists for
`settingDefinitionId = "x_y_z_setting"` in either definition table, the Row
label is the deterministic fallback `"Z Setting"` (the trailing two id
segments title-cased; three when the id has more than five segments), the
description is empty, and the walker returns normally with exactly one Row
(no exception path exists in the embedding). -/
theorem fallback_row_for_unresolved_id (pd lu : List SettingDefinition) (v : PyVal)
    (hpd : defDictGet pd "x_y_z_setting" = none)
    (hlu : defDictGet lu "x_y_z_setting" = none) :
    extractSetting pd lu (.simple "x_y_z_setting" v)
      = [⟨"Z Setting",
          formatValueForMarkdown (if v == PyVal.str "" then .str "Not configured" else v),
          ""⟩] := by
  have hres : resolveDefinition pd lu "x_y_z_setting" = none := by
    unfold resolveDefinition
    rw [hpd, hlu]
  rw [extractSetting, hres]
  rw [show rowDisplayName none "x_y_z_setting" = "Z Setting" from by decide]
  rw [show rowDescription none = "" from by decide]

/-- Witness for C5 amended: the empty definition tables at a concrete value. -/
theorem fallback_row_for_unresolved_id_witness :
    defDictGet [] "x_y_z_setting" = none ∧
    extractSetting [] [] (.simple "x_y_z_setting" (.str "true"))
      = [⟨"Z Setting", .str "true", ""⟩] := by
  refine ⟨by decide, ?_⟩
  rw [fallback_row_for_unresolved_id [] [] (.str "true") (by decide) (by decide)]
  decide

theorem extractChildren_eq_flatMap (pd lu : List SettingDefinition) :
    ∀ cs : List SettingInstance,
      extractChildren pd lu cs = cs.flatMap (extractSetting pd lu) := by
  intro cs
  induction cs with
  | nil => rfl
  | cons c t ih => rw [extractChildren, List.flatMap_cons, ih]

/-- C6: for every Choice node whose resolved definition exposes an option
matching the selected value (the first option whose `value` or `itemId`
equals it) with a non-empty display name, the walker's Row for the node
carries that display name (formatted) as its value, and the Rows of all the
node's children are appended after it, child by child in original order. -/
theorem choice_option_display_rows (pd lu : List SettingDefinition)
    (id : String) (v : PyVal) (children : List SettingInstance)
    (d : SettingDefinition) (opts : List OptionEntry) (o : OptionEntry) (dn : String)
    (hres : resolveDefinition pd lu id = some d)
    (hv : pyTruthy v = true)
    (hopts : d.options = some opts)
    (hfind : opts.find? (fun o => o.value == some v || o.itemId == some v) = some o)
    (hdn : pyOrStr o.displayName o.name = some dn)
    (hne : dn.data.isEmpty = false) :
    extractSetting pd lu (.choice id v children)
      = ⟨rowDisplayName (some d) id, formatValueForMarkdown (.str dn), rowDescription (some d)⟩
        :: children.flatMap (extractSetting pd lu) := by
  rw [extractSetting]
  rw [extractChildren_eq_flatMap]
  simp only [hres, Option.some_bind, hv, if_true, hopts, hfind, hdn, hne,
    Bool.false_eq_true, if_false]

/-- Witness for C6: the specification's scenario — a Choice on
`policy_timeout_v2` with selected value `"30"`, an option mapping it to
`"30 seconds"`, and one Simple child `retry_enabled` — yields the option
display name first and the child's Row after it. -/
theorem choice_option_display_rows_witness :
    extractSetting
      [{ id := some "policy_timeout_v2", displayName := some "Timeout", description := some "",
         options := some [{ value := some (.str "30"), displayName := some "30 seconds" }] }]
      []
      (.choice "policy_timeout_v2" (.str "30") [.simple "retry_enabled" (.bool true)])
      = [⟨"Timeout", .str "30 seconds", ""⟩, ⟨"Retry Enabled", .str "True", ""⟩] := by
  rw [choice_option_display_rows
      [{ id := some "policy_timeout_v2", displayName := some "Timeout", description := some "",
         options := some [{ value := some (.str "30"), displayName := some "30 seconds" }] }]
      []
      "policy_timeout_v2" (.str "30") [.simple "retry_enabled" (.bool true)]
      { id := some "policy_timeout_v2", displayName := some "Timeout", description := some "",
        options := some [{ value := some (.str "30"), displayName := some "30 seconds" }] }
      [{ value := some (.str "30"), displayName := some "30 seconds" }]
      { value := some (.str "30"), displayName := some "30 seconds" }
      "30 seconds"
      (by decide) (by decide) (by decide) (by decide) (by decide) (by decide)]
  decide

theorem firstDedup_nodup : ∀ l : List String, (firstDedup l).Nodup := by
  intro l
  induction l with
  | nil => exact List.nodup_nil
  | cons x xs ih =>
    rw [firstDedup]
    refine List.Nodup.cons ?_ (List.Nodup.filter _ ih)
    intro hmem
    exact absurd (List.of_mem_filter hmem) (by simp)

theorem count_policyLookupTrace_le_one (settings : List Setting) (d : String) :
    (policyLookupTrace settings).count d ≤ 1 :=
  List.nodup_iff_count_le_one.mp (firstDedup_nodup _) d

theorem count_nodup_eq_ite {l : List String} (h : l.Nodup) (d : String) :
    l.count d = if l.contains d then 1 else 0 := by
  by_cases hm : d ∈ l
  · rw [if_pos (List.elem_eq_true_of_mem hm)]
    have h1 : 1 ≤ l.count d := List.one_le_count_iff.mpr hm
    have h2 : l.count d ≤ 1 := List.nodup_iff_count_le_one.mp h d
    omega
  · rw [if_neg (by simpa using hm)]
    exact List.count_eq_zero.mpr hm

/-- C1 as stated is false: the dedup set is rebuilt per policy and no cache
survives across policies, so a run in which two policies reference the same
definition id issues two `FetchDefinition` calls for it. -/
theorem lookup_cache_counterexample :
    (runLookupTrace
        [[{ settingInstance := some (.simple "shared_setting_id" (.str "1")) }],
         [{ settingInstance := some (.simple "shared_setting_id" (.str "2")) }]]).count
        "shared_setting_id" = 2 ∧
    ¬((runLookupTrace
        [[{ settingInstance := some (.simple "shared_setting_id" (.str "1")) }],
         [{ settingInstance := some (.simple "shared_setting_id" (.str "2")) }]]).count
        "shared_setting_id" ≤ 1) := by
  refine ⟨by decide, by decide⟩

/-- C1 amended: within one policy the enrichment deduplicates ids before
looking them up, so each distinct id triggers at most one `FetchDefinition`
call per policy; but the resolution is per-policy — across a run, an id
referenced by k policies is fetched exactly k times (there is no run-wide
cache). -/
theorem lookup_calls_per_run (run : List (List Setting)) (d : String) :
    (runLookupTrace run).count d
      = run.countP (fun settings => (policyLookupTrace settings).contains d) ∧
    ∀ settings : List Setting, (policyLookupTrace settings).count d ≤ 1 := by
  refine ⟨?_, fun settings => count_policyLookupTrace_le_one settings d⟩
  induction run with
  | nil => rfl
  | cons settings rest ih =>
    rw [runLookupTrace] at *
    rw [List.flatMap_cons, List.count_append, ih, List.countP_cons]
    have hnd : (policyLookupTrace settings).Nodup := firstDedup_nodup _
    rw [count_nodup_eq_ite hnd d]
    rcases h : (policyLookupTrace settings).contains d with _ | _ <;> simp [h] <;> omega

/-- C3 is the code's intent but the code breaks it: when every definition
lookup for a policy's setting fails, the enrichment stores
`settingDefinitions = []`, and the documentation's
`setting.get("settingDefinitions", [\x7b\x7d])[0]` then raises `IndexError`
(the `[\x7b\x7d]` default only covers an *absent* key, not a present empty
list), so the policy's section is skipped instead of being rendered with
fallback labels — while the rest of the batch does continue. -/
theorem lookup_all_fail_policy_section_skipped :
    enrichSettingsWithDefinitions (fun _ => none)
        [{ settingInstance := some (.simple "x_y_z_setting" (.str "1")) }]
      = [{ settingInstance := some (.simple "x_y_z_setting" (.str "1")),
           settingDefinitions := some [] }] ∧
    createSettingsTables
        [{ settingInstance := some (.simple "x_y_z_setting" (.str "1")),
           settingDefinitions := some [] }]
      = .error () ∧
    docSettingsCatalogBatch
        [{ settings := [{ settingInstance := some (.simple "x_y_z_setting" (.str "1")),
                          settingDefinitions := some [] }] },
         { settings := [] }]
      = [none, some ("", [])] := by
  refine ⟨rfl, rfl, rfl⟩

/-- C4 as stated is false: even when the fetched definition exposes a
category reference, the enrichment copies only the id, display name and
description into the entry; no category lookup chain runs, the entry carries
no `categoryDisplayName`, and the documentation groups the setting under the
default `"Other Settings"` (not an empty string). -/
theorem category_chain_counterexample :
    enrichSettingsWithDefinitions
        (fun i =>
          if i = "device_policy_alpha" then
            some { id := some "device_policy_alpha", displayName := some "Alpha",
                   description := some "D", categoryId := some "category_1" }
          else none)
        [{ settingInstance := some (.simple "device_policy_alpha" (.str "1")) }]
      = [{ settingInstance := some (.simple "device_policy_alpha" (.str "1")),
           settingDefinitions := some
             [{ id := some "device_policy_alpha", displayName := some "Alpha",
                description := some "D" }] }] ∧
    ({ id := some "device_policy_alpha", displayName := some "Alpha",
       description := some "D" } : SettingDefinition).categoryDisplayName = none ∧
    categoryOf { id := some "device_policy_alpha", displayName := some "Alpha",
                 description := some "D" } = "Other Settings" ∧
    ("Other Settings" : String) ≠ "" := by
  refine ⟨rfl, rfl, rfl, by decide⟩

theorem built_defs_no_category (dm : List (String × DefMapEntry)) :
    (∀ inst, ∀ seen : List String, ∀ d ∈ (buildSettingDefinitions dm inst seen).1,
        d.categoryDisplayName = none ∧ d.options = none) ∧
    (∀ gs : List (List SettingInstance), ∀ seen : List String,
        ∀ d ∈ (buildDefsGroups dm gs seen).1,
        d.categoryDisplayName = none ∧ d.options = none) ∧
    (∀ cs : List SettingInstance, ∀ seen : List String,
        ∀ d ∈ (buildDefsChildren dm cs seen).1,
        d.categoryDisplayName = none ∧ d.options = none) := by
  have hstep : ∀ id : String, ∀ seen : List String, ∀ d ∈ (buildStep dm id seen).1,
      d.categoryDisplayName = none ∧ d.options = none := by
    intro id seen d hd
    unfold buildStep at hd
    split at hd
    · split at hd
      · simp at hd
      · simp at hd
        rw [hd]
        exact ⟨rfl, rfl⟩
    · simp at hd
  refine buildSettingDefinitions.mutual_induct dm _ _ _ ?_ ?_ ?_ ?_ ?_ ?_ ?_ ?_ ?_
  · intro id v seen d hd; exact hstep id seen d hd
  · intro id items seen d hd; exact hstep id seen d hd
  · intro id v children seen ds1 seen1 h1 ds2 seen2 h2 ih d hd
    have hd2 : d ∈ (match buildStep dm id seen with
        | (ds, s1) =>
          match buildDefsChildren dm children s1 with
          | (ds2, s2) => ((ds ++ ds2 : List SettingDefinition), s2)).1 := hd
    rw [h1] at hd2
    have hd3 : d ∈ (match buildDefsChildren dm children seen1 with
        | (ds2, s2) => ((ds1 ++ ds2 : List SettingDefinition), s2)).1 := hd2
    rw [h2] at hd3
    have hd4 : d ∈ ds1 ++ ds2 := hd3
    rcases List.mem_append.mp hd4 with h | h
    · exact hstep id seen d (by rw [h1]; exact h)
    · exact ih d (by rw [h2]; exact h)
  · intro id gs seen ds1 seen1 h1 ds2 seen2 h2 ih d hd
    have hd2 : d ∈ (match buildStep dm id seen with
        | (ds, s1) =>
          match buildDefsGroups dm gs s1 with
          | (ds2, s2) => ((ds ++ ds2 : List SettingDefinition), s2)).1 := hd
    rw [h1] at hd2
    have hd3 : d ∈ (match buildDefsGroups dm gs seen1 with
        | (ds2, s2) => ((ds1 ++ ds2 : List SettingDefinition), s2)).1 := hd2
    rw [h2] at hd3
    have hd4 : d ∈ ds1 ++ ds2 := hd3
    rcases List.mem_append.mp hd4 with h | h
    · exact hstep id seen d (by rw [h1]; exact h)
    · exact ih d (by rw [h2]; exact h)
  · intro id seen d hd; exact hstep id seen d hd
  · intro seen d hd
    exact absurd (hd : d ∈ ([] : List SettingDefinition)) (List.not_mem_nil d)
  · intro c cs seen ds1 seen1 h1 ds2 seen2 h2 ihc ihcs d hd
    have hd2 : d ∈ (match buildSettingDefinitions dm c seen with
        | (ds, s1) =>
          match buildDefsChildren dm cs s1 with
          | (ds2, s2) => ((ds ++ ds2 : List SettingDefinition), s2)).1 := hd
    rw [h1] at hd2
    have hd3 : d ∈ (match buildDefsChildren dm cs seen1 with
        | (ds2, s2) => ((ds1 ++ ds2 : List SettingDefinition), s2)).1 := hd2
    rw [h2] at hd3
    have hd4 : d ∈ ds1 ++ ds2 := hd3
    rcases List.mem_append.mp hd4 with h | h
    · exact ihc d (by rw [h1]; exact h)
    · exact ihcs d (by rw [h2]; exact h)
  · intro seen d hd
    exact absurd (hd : d ∈ ([] : List SettingDefinition)) (List.not_mem_nil d)
  · intro g gs seen ds1 seen1 h1 ds2 seen2 h2 ihg ihgs d hd
    have hd2 : d ∈ (match buildDefsChildren dm g seen with
        | (ds, s1) =>
          match buildDefsGroups dm gs s1 with
          | (ds2, s2) => ((ds ++ ds2 : List SettingDefinition), s2)).1 := hd
    rw [h1] at hd2
    have hd3 : d ∈ (match buildDefsGroups dm gs seen1 with
        | (ds2, s2) => ((ds1 ++ ds2 : List SettingDefinition), s2)).1 := hd2
    rw [h2] at hd3
    have hd4 : d ∈ ds1 ++ ds2 := hd3
    rcases List.mem_append.mp hd4 with h | h
    · exact ihg d (by rw [h1]; exact h)
    · exact ihgs d (by rw [h2]; exact h)

/-- C4 amended: for every fetch oracle and every policy whose raw settings
carry no `settingDefinitions` of their own, every definition entry the
enrichment produces has no `categoryDisplayName` (and no options) — the code
performs no category lookup chain at all — so the documentation's category
for each such setting is the constant default `"Other Settings"`; category
handling can indeed never fail the pipeline, because it never runs. -/
theorem enrichment_never_populates_category (fetch : String → Option GraphDefinition)
    (settings : List Setting)
    (hclean : ∀ s ∈ settings, s.settingDefinitions = none) :
    ∀ s ∈ enrichSettingsWithDefinitions fetch settings,
      ∀ defs, s.settingDefinitions = some defs →
        ∀ d ∈ defs, d.categoryDisplayName = none ∧ categoryOf d = "Other Settings" := by
  intro s hs defs hdefs d hd
  unfold enrichSettingsWithDefinitions at hs
  by_cases h1 : settings.isEmpty
  · rw [if_pos h1] at hs
    rw [hclean s hs] at hdefs
    exact absurd hdefs (by simp)
  · rw [if_neg h1] at hs
    by_cases h2 : (policyDefinitionIds settings).isEmpty
    · rw [if_pos h2] at hs
      rw [hclean s hs] at hdefs
      exact absurd hdefs (by simp)
    · rw [if_neg h2] at hs
      obtain ⟨s0, hs0, hmap⟩ := List.mem_map.mp hs
      rcases hinst : s0.settingInstance with _ | inst
      · rw [hinst] at hmap
        rw [← hmap] at hdefs
        rw [hclean s0 hs0] at hdefs
        exact absurd hdefs (by simp)
      · rw [hinst] at hmap
        rw [← hmap] at hdefs
        have hdefs2 : (buildSettingDefinitions
            (buildDefinitionMap ((policyDefinitionIds settings).filterMap fetch)) inst []).1
            = defs := Option.some.inj hdefs
        have hcat := ((built_defs_no_category
            (buildDefinitionMap ((policyDefinitionIds settings).filterMap fetch))).1
            inst [] d (hdefs2 ▸ hd)).1
        exact ⟨hcat, by rw [categoryOf, hcat]; rfl⟩

/-- Witness for C4 amended: a concrete fetch whose response exposes a
category reference still yields an entry with no category, grouped under
"Other Settings". -/
theorem enrichment_never_populates_category_witness :
    ({ id := some "w_fetch_demo", displayName := some "W",
       description := some "" } : SettingDefinition).categoryDisplayName = none ∧
    categoryOf { id := some "w_fetch_demo", displayName := some "W", description := some "" }
      = "Other Settings" := by
  exact enrichment_never_populates_category
    (fun i => if i = "w_fetch_demo" then
        some { id := some "w_fetch_demo", displayName := some "W",
               description := some "", categoryId := some "c9" }
      else none)
    [{ settingInstance := some (.simple "w_fetch_demo" (.str "1")) }]
    (by intro s hs; rw [List.mem_singleton] at hs; rw [hs])
    { settingInstance := some (.simple "w_fetch_demo" (.str "1")),
      settingDefinitions := some
        [{ id := some "w_fetch_demo", displayName := some "W", description := some "" }] }
    (List.mem_singleton.mpr rfl)
    [{ id := some "w_fetch_demo", displayName := some "W", description := some "" }]
    rfl
    { id := some "w_fetch_demo", displayName := some "W", description := some "" }
    (List.mem_singleton.mpr rfl)

/-- Bytes in the base64 alphabet among an input. -/
def b64AlphabetCount (bs : List Nat) : Nat :=
  bs.countP fun b => (b64CharVal b).isSome

/-- Key arithmetic of the decoder: every alphabet byte consumed at quad
position 0 produces no output byte, and every other alphabet byte produces at
most one, so a successful decode emits strictly fewer bytes than it consumed
whenever it consumed any. -/
theorem b64Go_length_le :
    ∀ (bs : List Nat) (quadPos leftchar pads : Nat) (out res : List Nat),
      b64Go bs quadPos leftchar pads out = some res →
      res.length + (if quadPos = 0 then min 1 (b64AlphabetCount bs) else 0)
        ≤ out.length + b64AlphabetCount bs := by
  intro bs
  induction bs with
  | nil =>
    intro qp lc pads out res h
    rw [b64Go] at h
    split at h
    · rename_i hq
      rw [hq, if_pos rfl]
      simp only [Option.some.injEq] at h
      rw [← h]
      simp [b64AlphabetCount]
    · exact absurd h (by simp)
  | cons b rest ih =>
    intro qp lc pads out res h
    rw [b64Go] at h
    by_cases hb : b = 61
    · rw [if_pos hb] at h
      have hcnt : b64AlphabetCount (b :: rest) = b64AlphabetCount rest := by
        rw [hb]; simp [b64AlphabetCount, List.countP_cons, b64CharVal]
      rw [hcnt]
      split at h
      · rename_i hq
        simp only [Option.some.injEq] at h
        rw [← h]
        have : (if qp = 0 then min 1 (b64AlphabetCount rest) else 0) = 0 := by
          rw [if_neg (by omega)]
        omega
      · exact ih qp lc (pads + 1) out res h
    · rw [if_neg hb] at h
      rcases hv : b64CharVal b with _ | v
      · rw [hv] at h
        have hcnt : b64AlphabetCount (b :: rest) = b64AlphabetCount rest := by
          simp [b64AlphabetCount, List.countP_cons, hv]
        rw [hcnt]
        exact ih qp lc pads out res h
      · rw [hv] at h
        have hcnt : b64AlphabetCount (b :: rest) = b64AlphabetCount rest + 1 := by
          simp [b64AlphabetCount, List.countP_cons, hv]
        rw [hcnt]
        rcases qp with _ | _ | _ | qp3
        · have := ih 1 (lc * 64 + v) pads out res h
          rw [if_neg (by omega)] at this
          have hm : min 1 (b64AlphabetCount rest + 1) = 1 := by omega
          rw [if_pos rfl, hm]
          omega
        · have := ih 2 ((lc * 64 + v) % 16) pads (out ++ [(lc * 64 + v) / 16]) res h
          rw [if_neg (by omega)] at this
          rw [if_neg (by omega)]
          simp at this
          omega
        · have := ih 3 ((lc * 64 + v) % 4) pads (out ++ [(lc * 64 + v) / 4]) res h
          rw [if_neg (by omega)] at this
          rw [if_neg (by omega)]
          simp at this
          omega
        · have := ih 0 0 pads (out ++ [(lc * 64 + v) % 256]) res h
          rw [if_pos rfl] at this
          rw [if_neg (by omega)]
          simp at this
          omega

theorem encChar_ne_nil (c : Char) : encChar c ≠ [] := by
  simp only [encChar]
  split
  · simp
  · split
    · simp
    · split <;> simp

theorem utf8Encode_eq_nil {s : String} (h : utf8Encode s = []) : s = "" := by
  rcases s with ⟨data⟩
  cases data with
  | nil => rfl
  | cons c t =>
    have h2 : encChar c ++ t.flatMap encChar = [] := h
    exact absurd (List.append_eq_nil.mp h2).1 (encChar_ne_nil c)

/-- The base64 gate of `clean_list` accepts only the empty string: a decode
emits strictly fewer bytes than the alphabet bytes it consumed (and at most
as many as the input), so decoded bytes can only equal the input bytes when
there are none. -/
theorem isBase64_imp_empty (s : String) (h : isBase64 s = true) : s = "" := by
  unfold isBase64 at h
  rcases hd : b64decodeBytes (utf8Encode s) with _ | res
  · rw [hd] at h; simp at h
  · rw [hd] at h
    have heq : res = utf8Encode s := by simpa using h
    have hb := b64Go_length_le (utf8Encode s) 0 0 0 [] res hd
    rw [if_pos rfl] at hb
    have hle : b64AlphabetCount (utf8Encode s) ≤ (utf8Encode s).length :=
      List.countP_le_length _
    rw [heq] at hb
    simp only [List.length_nil, Nat.zero_add] at hb
    have hlen : (utf8Encode s).length = 0 := by omega
    exact utf8Encode_eq_nil (List.length_eq_zero.mp hlen)

theorem pyStartsWith_first_char {s p q : String} {a b : Char}
    (hpa : p.data = [a]) (hqb : q.data = [b]) (hne : a ≠ b)
    (h : pyStartsWith s p = true) : pyStartsWith s q = false := by
  unfold pyStartsWith at h ⊢
  rw [hpa] at h
  rw [hqb]
  rw [show ([a] : List Char).length = 1 from rfl] at h
  rw [show ([b] : List Char).length = 1 from rfl]
  have h2 : List.take 1 s.data = [a] := by simpa using h
  simp [h2, hne]

/-- C7: the formatting path of `clean_list.string` is total over strings —
for every string input and either decode mode it produces a value, never
propagating an exception (including for invalid base64 and for invalid
JSON/XML-looking text) — and a JSON-looking value whose parse fails falls
through to the plain string unchanged. -/
theorem formatter_total (decode : Bool) (s : String) :
    (cleanListString decode s).isOk = true ∧
    (((pyStartsWith (pyStrip s) "\x7b" && pyEndsWith (pyStrip s) "\x7d")
        || (pyStartsWith (pyStrip s) "[" && pyEndsWith (pyStrip s) "]")) = true →
      jsonLoads s = none →
      formatValueForMarkdown (.str s) = .str s) := by
  constructor
  · unfold cleanListString
    by_cases hd : (decode && isBase64 s) = true
    · rw [if_pos hd]
      have hd2 := hd
      simp only [Bool.and_eq_true] at hd2
      have hs : s = "" := isBase64_imp_empty s hd2.2
      subst hs
      rfl
    · rw [if_neg hd]
      rfl
  · intro hjson hparse
    unfold formatValueForMarkdown
    by_cases htr : (!pyTruthy (.str s) || (PyVal.str s == PyVal.str "Not configured")) = true
    · rw [if_pos htr]
    · rw [if_neg htr]
      have hxml : pyStartsWith (pyStrip s) "<" = false := by
        have hj2 := hjson
        simp only [Bool.or_eq_true, Bool.and_eq_true] at hj2
        rcases hj2 with ⟨hb, _⟩ | ⟨hb, _⟩
        · exact pyStartsWith_first_char rfl rfl (by decide) hb
        · exact pyStartsWith_first_char rfl rfl (by decide) hb
      simp only [pyStr, hxml, Bool.false_and, Bool.false_eq_true, if_false, hjson, if_true,
        hparse]

/-- Witness for C7: a brace-wrapped non-JSON value is returned untouched and
the whole path reports success, as does an invalid-padding base64 candidate
with decoding enabled. -/
theorem formatter_total_witness :
    (cleanListString true "\x7bnot json\x7d").isOk = true ∧
    formatValueForMarkdown (.str "\x7bnot json\x7d") = .str "\x7bnot json\x7d" ∧
    (cleanListString true "ab=").isOk = true := by
  refine ⟨(formatter_total true "\x7bnot json\x7d").1, ?_,
    (formatter_total true "ab=").1⟩
  exact (formatter_total true "\x7bnot json\x7d").2 (by decide) (by rfl)

/-- C8: for every string that passes the round-trip base64 test, the decode
step runs and succeeds before formatting — the decoded text is the string
itself, since the test demands the decoded bytes equal the input bytes — and
for every string that fails the test no decode is attempted: the original
value is used unmodified and nothing raises. -/
theorem decode_path_preserves_value (s : String) :
    (isBase64 s = true → decodeBase64 s = .ok s ∧
      cleanListString true s = .ok (formatCollapse s)) ∧
    (isBase64 s = false → cleanListString true s = .ok (formatCollapse s)) := by
  constructor
  · intro h
    have hs := isBase64_imp_empty s h
    subst hs
    exact ⟨rfl, rfl⟩
  · intro h
    unfold cleanListString
    rw [h]
    rfl

/-- Witness for C8: the empty string is decodable (and decodes to itself);
`"ab="` has invalid padding, is rejected by the gate, and is passed through
unmodified. -/
theorem decode_path_preserves_value_witness :
    isBase64 "" = true ∧ decodeBase64 "" = .ok "" ∧ cleanListString true "" = .ok "" ∧
    isBase64 "ab=" = false ∧ cleanListString true "ab=" = .ok "ab=" := by
  refine ⟨by decide, ((decode_path_preserves_value "").1 (by decide)).1, ?_, by decide, ?_⟩
  · rw [((decode_path_preserves_value "").1 (by decide)).2]
    rfl
  · rw [(decode_path_preserves_value "ab=").2 (by decide)]
    rfl

/-- Witness for C9 amended: a scan already in filename order yields an index
in that same order, hence sorted. -/
theorem index_lists_files_in_scan_order_witness :
    indexEntryNames ["cfg/docs/a.md", "cfg/docs/b.md"] = ["a.md", "b.md"] ∧
    List.Pairwise (fun a b => pyStrLe a b = true)
      (indexEntryNames ["cfg/docs/a.md", "cfg/docs/b.md"]) := by
  refine ⟨?_, ?_⟩
  · rw [(index_lists_files_in_scan_order ["cfg/docs/a.md", "cfg/docs/b.md"]).1]
    decide
  · exact (index_lists_files_in_scan_order ["cfg/docs/a.md", "cfg/docs/b.md"]).2 (by decide)
